import Mathlib

/-!
# vfdmod: the acquisition core of `main.cpp`

A shallow embedding of `protocol_delay`, `loop_delay`, `read_parameters` and the
start-up and polling loop of `main`, followed by the properties checked against the
specification.

Conventions of the embedding.

* `structures.h` is not among the sources.  The record types it declares are rebuilt from
  the fields `main.cpp` uses.  The serial parameters and the register addresses are C `int`
  (32 bits, two's complement), the type under which `main` hands them to libmodbus.  The
  types of `multiplier` and `divider` are not visible: their values are rational numbers,
  and the arithmetic of `value * multiplier / divider`, which those types fix, is a
  parameter of the embedding (`Scaling`).  `long` has 64 bits (LP64 Linux).
* Machine integers are values of `Int`; every arithmetic step of the source is followed by
  the reduction to the width of its C type (`wrapS32`, `wrapS64`, `wrapU32`).  A signed
  overflow, which has no defined result in C, wraps.
* A HAL float pin holds a finite binary floating-point number (`hal_float_t`).
* `errno` is part of the state.  A call of `modbus_read_registers` may overwrite it, and
  so may a call of `printf`: `World.printfErr` lists what the coming calls of `printf` do
  to it.  `nanosleep` is taken not to.
* `World.reads` is a ghost field: it records the addresses handed to
  `modbus_read_registers`, so that the order of the reads can be stated.
* The serial line is a `Transport`: the reply to the n-th read of a sweep.  Within one
  sweep the requests form a prefix of the register map, so this covers every deterministic
  behaviour of the bus.
-/

namespace Vfdmod

/-! ## Machine arithmetic -/

/-- Reduction of an integer to the range of a signed 32-bit `int`. -/
def wrapS32 (x : Int) : Int := (x + 2147483648) % 4294967296 - 2147483648

/-- Reduction of an integer to the range of a signed 64-bit `long`. -/
def wrapS64 (x : Int) : Int :=
  (x + 9223372036854775808) % 18446744073709551616 - 9223372036854775808

/-- Conversion of an integer to an unsigned 32-bit integer. -/
def wrapU32 (x : Int) : Int := x % 4294967296

/-- Membership in the range of a signed 32-bit `int`. -/
def IsS32 (x : Int) : Prop := -2147483648 ≤ x ∧ x ≤ 2147483647

/-- Membership in the range of a signed 64-bit `long`. -/
def IsS64 (x : Int) : Prop := -9223372036854775808 ≤ x ∧ x ≤ 9223372036854775807

instance (x : Int) : Decidable (IsS32 x) := by unfold IsS32; infer_instance

instance (x : Int) : Decidable (IsS64 x) := by unfold IsS64; infer_instance

/-- Truncation of a rational number toward zero. -/
def truncQ (q : ℚ) : Int := if 0 ≤ q then ⌊q⌋ else -⌊-q⌋

/-! ## Data model -/

/-- The pin types of `hal.h` (`hal_type_t`). -/
inductive hal_type_t where
  | HAL_TYPE_UNSPECIFIED
  | HAL_BIT
  | HAL_FLOAT
  | HAL_S32
  | HAL_U32
  | HAL_PORT
  deriving DecidableEq, Repr

/-- The content of a HAL float pin (`hal_float_t` of `hal.h`, a `double`): the finite
binary floating-point number `mant * 2 ^ exp`.  Infinities and NaN are left out. -/
structure hal_float_t where
  mant : Int
  exp : Int
  deriving DecidableEq, Repr

/-- The rational number a floating-point number stands for. -/
def hal_float_t.toRat (x : hal_float_t) : ℚ :=
  if 0 ≤ x.exp then (x.mant : ℚ) * 2 ^ x.exp.toNat else (x.mant : ℚ) / 2 ^ (-x.exp).toNat

/-- The floating-point number 0, which `main` writes to every float pin. -/
instance : OfNat hal_float_t 0 := ⟨{ mant := 0, exp := 0 }⟩

/-- The bounds on mantissa and exponent of a finite IEEE 754 binary64 number. -/
def hal_float_t.IsDouble (x : hal_float_t) : Prop :=
  -9007199254740992 < x.mant ∧ x.mant < 9007199254740992 ∧ -1074 ≤ x.exp ∧ x.exp ≤ 971

instance (x : hal_float_t) : Decidable x.IsDouble := by
  unfold hal_float_t.IsDouble; infer_instance

/-- The rational numbers a `double` represents. -/
def Representable (q : ℚ) : Prop := ∃ x : hal_float_t, x.IsDouble ∧ x.toRat = q

/-- Modelled from the spec: the record `rs485_config_t` of `structures.h`, with the fields
`protocol_delay`, `loop_delay` and `main` use (connection parameters of section 3). -/
structure rs485_config_t where
  baudRate : Int
  dataBits : Int
  parity : String
  stopBits : Int
  loopDelayMs : Int
  protocolDelay : Int
  deriving DecidableEq, Repr

/-- Modelled from the spec: the type of `mconfig.rpmOut` in `structures.h` (the spindle
output parameter of section 3: register address, multiplier (numeric), divisor
(numeric)). -/
structure spindle_out_config_t where
  address : Int
  multiplier : ℚ
  divider : ℚ
  deriving DecidableEq, Repr

/-- Modelled from the spec: the record `main_config_t` of `structures.h`. -/
structure main_config_t where
  rs485 : rs485_config_t
  rpmOut : spindle_out_config_t
  deriving DecidableEq, Repr

/-- Modelled from the spec: the record `user_config_t` of `structures.h` (a user parameter
of section 3: register address, multiplier (numeric), divisor (numeric), output kind). -/
structure user_config_t where
  address : Int
  multiplier : ℚ
  divider : ℚ
  pinType : hal_type_t
  deriving DecidableEq, Repr

/-- Modelled from the spec: the record `hal_main_data_t` of `structures.h`, as the values
behind the pins `main` creates, in its order (acquisition state of section 3). -/
structure hal_main_data_t where
  isConnected : Bool
  errorCount : Int
  lastError : Int
  spindleRpmIn : hal_float_t
  spindleRpmOut : hal_float_t
  atSpeed : Bool
  runForward : Bool
  runReverse : Bool
  deriving DecidableEq, Repr

/-- Modelled from the spec: the record `hal_user_data_t` of `structures.h`, as the values
behind the three pins `read_parameters` assigns through it (one typed output per user
parameter, section 6). -/
structure hal_user_data_t where
  floatPin : hal_float_t
  s32Pin : Int
  u32Pin : Int
  deriving DecidableEq, Repr

/-- What `structures.h` fixes and `main.cpp` does not show: the value of the expression
`value * multiplier / divider`, for a register value and the two configured numbers, as it
arrives in a pin of each kind.  The types of `multiplier` and `divider` decide in which
arithmetic the product and the quotient are formed and how the result is converted. -/
structure Scaling where
  toFloat : Int → ℚ → ℚ → hal_float_t
  toS32 : Int → ℚ → ℚ → Int
  toU32 : Int → ℚ → ℚ → Int

/-- Modelled from the spec: the rounding of the floating-point division of section 4.1
(the types of `multiplier` and `divider` are declared in `structures.h`): a function to
the floating-point numbers that returns every number a `double` represents as it is. -/
structure Rounding where
  round : ℚ → hal_float_t
  exact : ∀ q : ℚ, Representable q → (round q).toRat = q

/-- A rounding to the nearest multiple of `2 ^ (-1074)`, the spacing of the smallest
`double` values. -/
def roundGrid : ℚ → hal_float_t := fun q =>
  { mant := ⌊q * 2 ^ 1074 + 1 / 2⌋, exp := -1074 }

/-- Modelled from the spec: the arithmetic of `value * multiplier / divider` according to
section 4.1, in place of the one the types in `structures.h` fix: the product is formed
without wrapping, a float output receives the floating-point quotient, an integer output
the quotient truncated toward zero. -/
def specScaling (R : Rounding) : Scaling :=
  { toFloat := fun value multiplier divider => R.round (value * multiplier / divider)
    toS32 := fun value multiplier divider => truncQ (value * multiplier / divider)
    toU32 := fun value multiplier divider => truncQ (value * multiplier / divider) }

/-- Argument of `nanosleep`. -/
structure timespec where
  tv_sec : Int
  tv_nsec : Int
  deriving DecidableEq, Repr

/-- The condition under which `nanosleep` accepts its argument. -/
def timespec.valid (t : timespec) : Prop :=
  0 ≤ t.tv_sec ∧ 0 ≤ t.tv_nsec ∧ t.tv_nsec ≤ 999999999

instance (t : timespec) : Decidable t.valid := by unfold timespec.valid; infer_instance

/-- Duration of a `timespec` in nanoseconds. -/
def timespec.nanos (t : timespec) : Int := t.tv_sec * 1000000000 + t.tv_nsec

/-- What one call of `modbus_read_registers` does: its return value, the register content
it stores, and the `errno` it leaves (`none`: unchanged). -/
structure Reply where
  result : Int
  value : Nat
  err : Option Int
  deriving DecidableEq, Repr

/-- The content of the `uint16_t` variable `value` after a call that answered `r`. -/
def Reply.reg (r : Reply) : Int := ((r.value % 65536 : Nat) : Int)

/-- The bus during one sweep: the reply to the read at each position, position 0 being the
spindle register and position `k + 1` the user parameter of index `k`. -/
abbrev Transport := Nat → Reply

/-- Process state seen by `read_parameters`: `errno`, the two global pin blocks, the
register addresses requested so far, and for each coming call of `printf` the `errno` it
leaves (`none`, also when the list is used up: unchanged). -/
structure World where
  errno : Int
  hal_mdata : hal_main_data_t
  hal_udata : List hal_user_data_t
  reads : List Int
  printfErr : List (Option Int)
  deriving DecidableEq, Repr

/-! ## Timing -/

/-- The body of `protocol_delay`: the `timespec` it hands to `nanosleep`. -/
def protocol_delay (cfg : rs485_config_t) : timespec :=
  let startBit : Int := if cfg.parity ≠ "N" then 1 + 1 else 1
  let bits : Int := wrapS32 (wrapS32 (startBit + cfg.dataBits) + cfg.stopBits)
  let ns : Int :=
    wrapS64 (Int.tdiv (wrapS64 (wrapS64 (1000000000 * cfg.protocolDelay) * bits)) cfg.baudRate)
  { tv_sec := 0, tv_nsec := ns }

/-- The body of `loop_delay`: the `timespec` it hands to `nanosleep`. -/
def loop_delay (cfg : rs485_config_t) : timespec :=
  let ns : Int := wrapS64 (1000000 * cfg.loopDelayMs)
  { tv_sec := 0, tv_nsec := ns }

/-! ## Acquisition -/

/-- Application of `f` to the element of index `i`. -/
def modifyAt {α : Type} (f : α → α) : List α → Nat → List α
  | [], _ => []
  | a :: l, 0 => f a :: l
  | a :: l, i + 1 => a :: modifyAt f l i

/-- One call `modbus_read_registers(ctx, addr, 1, &value)` at position `pos` of the sweep. -/
def modbus_read_registers (tr : Transport) (pos : Nat) (addr : Int) (w : World) :
    Reply × World :=
  (tr pos, { w with errno := (tr pos).err.getD w.errno, reads := w.reads ++ [addr] })

/-- One call of `printf`: it may leave a new `errno`. -/
def printf (w : World) : World :=
  { w with errno := (w.printfErr.headD none).getD w.errno, printfErr := w.printfErr.tail }

/-- The `switch` on the pin type in the loop of `read_parameters`: the assignment of
`value * multiplier / divider` to the pin of entry `i`, or `none` in the `default`
branch. -/
def publish (A : Scaling) (u : user_config_t) (i : Nat) (value : Int) (w : World) :
    Option World :=
  match u.pinType with
  | .HAL_FLOAT =>
    some { w with
      hal_udata :=
        modifyAt (fun d => { d with floatPin := A.toFloat value u.multiplier u.divider })
          w.hal_udata i }
  | .HAL_S32 =>
    some { w with
      hal_udata :=
        modifyAt (fun d => { d with s32Pin := wrapS32 (A.toS32 value u.multiplier u.divider) })
          w.hal_udata i }
  | .HAL_U32 =>
    some { w with
      hal_udata :=
        modifyAt (fun d => { d with u32Pin := wrapU32 (A.toU32 value u.multiplier u.divider) })
          w.hal_udata i }
  | _ => none

/-- How control leaves the loop over the user parameters. -/
inductive Flow where
  | done (result : Int) (w : World)
  | fail (result : Int) (w : World)
  deriving DecidableEq, Repr

/-- The state carried by a `Flow`. -/
def Flow.world : Flow → World
  | .done _ w => w
  | .fail _ w => w

/-- The `for` loop of `read_parameters` from index `i` on, over the entries not yet
visited.  The `default` branch calls `printf` before it jumps to `fail`. -/
def userLoop (A : Scaling) (tr : Transport) : List user_config_t → Nat → Int → World → Flow
  | [], _, result, w => .done result w
  | u :: rest, i, _, w =>
    let rw := modbus_read_registers tr (i + 1) u.address w
    if rw.1.result < 0 then .fail rw.1.result rw.2
    else
      let value : Int := rw.1.reg
      match publish A u i value rw.2 with
      | none => .fail rw.1.result (printf rw.2)
      | some w2 =>
        if rw.1.result ≠ 0 then .fail rw.1.result w2
        else userLoop A tr rest (i + 1) rw.1.result w2

/-- The code after the label `fail` of `read_parameters`: `printf`, then the increment of
the error count, then the copy of `errno`. -/
def fail_label (result : Int) (w : World) : Int × World :=
  let w1 := printf w
  (result,
    { w1 with
      hal_mdata :=
        { w1.hal_mdata with
          errorCount := wrapS32 (w1.hal_mdata.errorCount + 1)
          lastError := w1.errno } })

/-- The function `read_parameters`: one sweep over the register map. -/
def read_parameters (A : Scaling) (tr : Transport) (mconfig : main_config_t)
    (uconfig : List user_config_t) (w : World) : Int × World :=
  let rw := modbus_read_registers tr 0 mconfig.rpmOut.address w
  if rw.1.result < 0 then fail_label rw.1.result rw.2
  else
    let value : Int := rw.1.reg
    let w2 : World :=
      { rw.2 with
        hal_mdata :=
          { rw.2.hal_mdata with
            spindleRpmOut := A.toFloat value mconfig.rpmOut.multiplier mconfig.rpmOut.divider } }
    match userLoop A tr uconfig 0 rw.1.result w2 with
    | .done result w3 => (result, w3)
    | .fail result w3 => fail_label result w3

/-! ## Start-up and polling loop -/

/-- The pin values `main` writes before it allocates the user pins. -/
def hal_mdata_init : hal_main_data_t :=
  { isConnected := false, errorCount := 0, lastError := 0, spindleRpmIn := 0,
    spindleRpmOut := 0, atSpeed := false, runForward := false, runReverse := false }

/-- The second `for` loop of `main`: one zeroed pin per user parameter, `none` when the
loop jumps to `fail`.  `result` is what `load_config` returned. -/
def init_user_pins (result : Int) : List user_config_t → Option (List hal_user_data_t)
  | [] => some []
  | u :: rest =>
    match u.pinType with
    | .HAL_FLOAT | .HAL_S32 | .HAL_U32 =>
      if result ≠ 0 then none
      else (init_user_pins result rest).map
        (fun l => { floatPin := 0, s32Pin := 0, u32Pin := 0 } :: l)
    | _ => none

/-- The state in which `main` enters its polling loop, `none` when it exits before.  The
HAL and libmodbus set-up calls are taken to succeed; `e` is the `errno` they leave and
`out` what the calls of `printf` to come will do to `errno`. -/
def main_init (result : Int) (e : Int) (out : List (Option Int))
    (uconfig : List user_config_t) : Option World :=
  if result < 0 then none
  else (init_user_pins result uconfig).map
    (fun l =>
      { errno := e, hal_mdata := hal_mdata_init, hal_udata := l, reads := [],
        printfErr := out })

/-- One iteration of the `while` loop of `main`: `read_parameters`, then `loop_delay`,
which leaves the state alone. -/
def sweep (A : Scaling) (tr : Transport) (mconfig : main_config_t)
    (uconfig : List user_config_t) (w : World) : World :=
  (read_parameters A tr mconfig uconfig w).2

/-- The `while` loop of `main` for as many iterations as there are transports. -/
def run (A : Scaling) (mconfig : main_config_t) (uconfig : List user_config_t) :
    List Transport → World → World
  | [], w => w
  | tr :: trs, w => run A mconfig uconfig trs (sweep A tr mconfig uconfig w)

/-- The register addresses of the map in declaration order, spindle first. -/
def registerOrder (mconfig : main_config_t) (uconfig : List user_config_t) : List Int :=
  mconfig.rpmOut.address :: uconfig.map (fun u => u.address)

/-- The reply of a bus on which every read succeeds and delivers `v`: one register read,
`errno` untouched. -/
def okReply (v : Nat) : Reply := { result := 1, value := v, err := none }

/-- The outputs a sweep publishes: both pin blocks. -/
def World.published (w : World) : hal_main_data_t × List hal_user_data_t :=
  (w.hal_mdata, w.hal_udata)

/-- The output kinds the `switch` of `read_parameters` has a case for. -/
def recognized (t : hal_type_t) : Prop :=
  t = .HAL_FLOAT ∨ t = .HAL_S32 ∨ t = .HAL_U32

instance (t : hal_type_t) : Decidable (recognized t) := by unfold recognized; infer_instance

/-- The effect on one pin record of the assignment the `switch` makes for a parameter
`u`. -/
def written (A : Scaling) (u : user_config_t) (value : Int) (d : hal_user_data_t) :
    hal_user_data_t :=
  match u.pinType with
  | .HAL_FLOAT => { d with floatPin := A.toFloat value u.multiplier u.divider }
  | .HAL_S32 => { d with s32Pin := wrapS32 (A.toS32 value u.multiplier u.divider) }
  | .HAL_U32 => { d with u32Pin := wrapU32 (A.toU32 value u.multiplier u.divider) }
  | _ => d

/-- The start bit count of the spec's protocol delay formula: 1 for parity "N", else 2. -/
def startBit (parity : String) : Int := if parity = "N" then 1 else 2

/-- The bit count `startBit + dataBits + stopBits` of the spec's protocol delay formula, as
an integer without bound. -/
def frameBits (cfg : rs485_config_t) : Int := startBit cfg.parity + cfg.dataBits + cfg.stopBits

/-- Whether control left the user loop through `goto fail`. -/
def Flow.failed : Flow → Prop
  | .done _ _ => False
  | .fail _ _ => True

/-- The state after the spindle register was read and its pin written. -/
def spindleWorld (A : Scaling) (tr : Transport) (mconfig : main_config_t) (w : World) :
    World :=
  { (modbus_read_registers tr 0 mconfig.rpmOut.address w).2 with
    hal_mdata :=
      { w.hal_mdata with
        spindleRpmOut :=
          A.toFloat (tr 0).reg mconfig.rpmOut.multiplier mconfig.rpmOut.divider } }

/-- The end of `read_parameters` after the user loop: `return result`, or the code at
`fail`. -/
def finish : Flow → Int × World
  | .done result w => (result, w)
  | .fail result w => fail_label result w

/-! ## Concrete configurations, arithmetic and buses -/

/-- The rounding `roundGrid` with the proof that it returns every number a `double`
represents as it is. -/
def gridRounding : Rounding :=
  { round := roundGrid
    exact := by
      have key : ∀ (q : ℚ) (N : Int), q * 2 ^ 1074 = (N : ℚ) → (roundGrid q).toRat = q := by
        intro q N hN
        have hP : (2 : ℚ) ^ 1074 ≠ 0 := pow_ne_zero _ two_ne_zero
        have hfloor : ⌊(N : ℚ) + 1 / 2⌋ = N := by
          rw [Int.floor_eq_iff]
          constructor <;> linarith
        have hr : roundGrid q = { mant := N, exp := -1074 } := by
          unfold roundGrid
          rw [hN, hfloor]
        rw [hr]
        show (if (0 : Int) ≤ -1074 then (N : ℚ) * 2 ^ (-1074 : Int).toNat
          else (N : ℚ) / 2 ^ (-(-1074 : Int)).toNat) = q
        rw [if_neg (by decide), show (-(-1074 : Int)).toNat = 1074 from rfl, div_eq_iff hP]
        exact hN.symm
      intro q hq
      obtain ⟨x, ⟨_, _, hlo, _⟩, rfl⟩ := hq
      by_cases he : 0 ≤ x.exp
      · apply key x.toRat (x.mant * 2 ^ x.exp.toNat * 2 ^ 1074)
        unfold hal_float_t.toRat
        rw [if_pos he]
        rw [Int.cast_mul, Int.cast_mul, Int.cast_pow, Int.cast_pow, Int.cast_ofNat]
      · apply key x.toRat (x.mant * 2 ^ (1074 - (-x.exp).toNat))
        unfold hal_float_t.toRat
        rw [if_neg he]
        have hle : (-x.exp).toNat ≤ 1074 := by omega
        have hpos : (2 : ℚ) ^ (-x.exp).toNat ≠ 0 := pow_ne_zero _ two_ne_zero
        have hsplit : (2 : ℚ) ^ 1074 = 2 ^ (-x.exp).toNat * 2 ^ (1074 - (-x.exp).toNat) := by
          rw [← pow_add, Nat.add_sub_cancel' hle]
        rw [hsplit, Int.cast_mul, Int.cast_pow, ← mul_assoc, div_mul_cancel₀ _ hpos,
          Int.cast_ofNat] }

/-- The arithmetic of section 4.1 with the rounding `roundGrid`. -/
def scalingSpec : Scaling := specScaling gridRounding

/-- Serial parameters of the spec's timing example: 9600 baud, parity "N", 8 data bits,
1 stop bit, protocol delay factor 1. -/
def cfg9600 : rs485_config_t :=
  { baudRate := 9600, dataBits := 8, parity := "N", stopBits := 1, loopDelayMs := 100,
    protocolDelay := 1 }

/-- Serial parameters with the largest `int` as protocol delay factor, at 1 baud. -/
def cfgHuge : rs485_config_t :=
  { baudRate := 1, dataBits := 8, parity := "N", stopBits := 1, loopDelayMs := 100,
    protocolDelay := 2147483647 }

/-- Serial parameters with a loop delay of one second. -/
def cfgSecond : rs485_config_t :=
  { baudRate := 9600, dataBits := 8, parity := "N", stopBits := 1, loopDelayMs := 1000,
    protocolDelay := 1 }

/-- A register map head: spindle register 100, scaled by 1/2. -/
def mconfigHalf : main_config_t :=
  { rs485 := cfg9600, rpmOut := { address := 100, multiplier := 1, divider := 2 } }

/-- A user parameter at register `a`, scaled by 1/2, of kind `t`. -/
def userHalf (a : Int) (t : hal_type_t) : user_config_t :=
  { address := a, multiplier := 1, divider := 2, pinType := t }

/-- The state in which `main` enters the loop with `n` user parameters, `errno = 0` and a
`printf` that leaves `errno` alone. -/
def world0 (n : Nat) : World :=
  { errno := 0, hal_mdata := hal_mdata_init,
    hal_udata := List.replicate n { floatPin := 0, s32Pin := 0, u32Pin := 0 }, reads := [],
    printfErr := [] }

/-- The state `world0 n` with the error counter at the largest 32-bit value. -/
def worldFull (n : Nat) : World :=
  { world0 n with hal_mdata := { hal_mdata_init with errorCount := 2147483647 } }

/-- A bus on which every read succeeds and delivers 1500. -/
def busOk : Transport := fun _ => okReply 1500

/-- A bus on which every read succeeds except the one at position `j`, which fails with
`errno = 110`. -/
def busFailAt (j : Nat) : Transport := fun n =>
  if n = j then { result := -1, value := 0, err := some 110 } else okReply 1500

/-- A bus on which reads return 0 and deliver 1500, except the one at position `j`, which
fails with `errno = 110`. -/
def busZeroFailAt (j : Nat) : Transport := fun n =>
  if n = j then { result := -1, value := 0, err := some 110 }
  else { result := 0, value := 1500, err := none }

/-! ## Arithmetic lemmas -/

theorem wrapS32_eq_self {x : Int} (h : IsS32 x) : wrapS32 x = x := by
  unfold IsS32 at h
  unfold wrapS32
  omega

theorem wrapS64_eq_self {x : Int} (h : IsS64 x) : wrapS64 x = x := by
  unfold IsS64 at h
  unfold wrapS64
  omega

theorem length_modifyAt {α : Type} (f : α → α) (l : List α) (i : Nat) :
    (modifyAt f l i).length = l.length := by
  induction l generalizing i with
  | nil => rfl
  | cons a l ih => cases i <;> simp [modifyAt, ih]

theorem getElem?_modifyAt {α : Type} (f : α → α) (l : List α) (i j : Nat) :
    (modifyAt f l i)[j]? = if j = i then l[j]?.map f else l[j]? := by
  induction l generalizing i j with
  | nil => simp [modifyAt]
  | cons a l ih => cases i <;> cases j <;> simp [modifyAt, ih]

/-! ## The `switch` and `printf` -/

theorem publish_eq_some {A : Scaling} {u : user_config_t} {i : Nat} {x : Int} {w w2 : World}
    (h : publish A u i x w = some w2) :
    recognized u.pinType ∧ w2.errno = w.errno ∧ w2.hal_mdata = w.hal_mdata ∧
      w2.reads = w.reads ∧ w2.printfErr = w.printfErr ∧
      w2.hal_udata = modifyAt (written A u x) w.hal_udata i := by
  rcases u with ⟨a, m, d, t⟩
  cases t <;> simp [publish] at h <;> subst h <;>
    exact ⟨by simp [recognized], rfl, rfl, rfl, rfl, rfl⟩

theorem publish_eq_none {A : Scaling} {u : user_config_t} {i : Nat} {x : Int} {w : World} :
    publish A u i x w = none ↔ ¬ recognized u.pinType := by
  rcases u with ⟨a, m, d, t⟩
  cases t <;> simp [publish, recognized]

theorem publish_isSome (A : Scaling) {u : user_config_t} (i : Nat) (x : Int) (w : World)
    (h : recognized u.pinType) : ∃ w2, publish A u i x w = some w2 := by
  cases hp : publish A u i x w with
  | none => exact absurd h (publish_eq_none.mp hp)
  | some w2 => exact ⟨w2, rfl⟩

/-- The pin of entry `i` after the `switch` published to it, and the other pins. -/
theorem publish_getElem? {A : Scaling} {u : user_config_t} {i : Nat} {x : Int} {w w2 : World}
    (h : publish A u i x w = some w2) (k : Nat) :
    w2.hal_udata[k]? =
      if k = i then (w.hal_udata[k]?).map (written A u x) else w.hal_udata[k]? := by
  rw [(publish_eq_some h).2.2.2.2.2, getElem?_modifyAt]

/-! ## One iteration of the user loop -/

/-- The four ways through one iteration of the loop of `read_parameters`. -/
theorem userLoop_cons_cases (A : Scaling) (tr : Transport) (u : user_config_t)
    (rest : List user_config_t) (i : Nat) (r : Int) (w : World) :
    ((tr (i + 1)).result < 0 ∧
        userLoop A tr (u :: rest) i r w =
          .fail (tr (i + 1)).result (modbus_read_registers tr (i + 1) u.address w).2) ∨
    (0 ≤ (tr (i + 1)).result ∧ ¬ recognized u.pinType ∧
        userLoop A tr (u :: rest) i r w =
          .fail (tr (i + 1)).result
            (printf (modbus_read_registers tr (i + 1) u.address w).2)) ∨
    (0 < (tr (i + 1)).result ∧ recognized u.pinType ∧
        ∃ w2, publish A u i (tr (i + 1)).reg
            (modbus_read_registers tr (i + 1) u.address w).2 = some w2 ∧
          userLoop A tr (u :: rest) i r w = .fail (tr (i + 1)).result w2) ∨
    ((tr (i + 1)).result = 0 ∧ recognized u.pinType ∧
        ∃ w2, publish A u i (tr (i + 1)).reg
            (modbus_read_registers tr (i + 1) u.address w).2 = some w2 ∧
          userLoop A tr (u :: rest) i r w = userLoop A tr rest (i + 1) 0 w2) := by
  by_cases h1 : (tr (i + 1)).result < 0
  · left
    exact ⟨h1, by simp [userLoop, modbus_read_registers, h1]⟩
  · have h1' : 0 ≤ (tr (i + 1)).result := not_lt.mp h1
    right
    by_cases h2 : recognized u.pinType
    · right
      obtain ⟨w2, hw2⟩ := publish_isSome A i (tr (i + 1)).reg
        (modbus_read_registers tr (i + 1) u.address w).2 h2
      by_cases h3 : (tr (i + 1)).result = 0
      · right
        refine ⟨h3, h2, w2, hw2, ?_⟩
        simp only [modbus_read_registers] at hw2
        simp [userLoop, modbus_read_registers, h3, hw2]
      · left
        refine ⟨lt_of_le_of_ne h1' (Ne.symm h3), h2, w2, hw2, ?_⟩
        simp only [modbus_read_registers] at hw2
        simp [userLoop, modbus_read_registers, h1, h3, hw2]
    · left
      refine ⟨h1', h2, ?_⟩
      have hp := (publish_eq_none (A := A) (i := i) (x := (tr (i + 1)).reg)
        (w := (modbus_read_registers tr (i + 1) u.address w).2)).mpr h2
      simp only [modbus_read_registers] at hp
      simp [userLoop, modbus_read_registers, h1, hp]

/-! ## The user loop -/

theorem userLoop_mdata (A : Scaling) (tr : Transport) (us : List user_config_t) :
    ∀ (i : Nat) (r : Int) (w : World),
      (userLoop A tr us i r w).world.hal_mdata = w.hal_mdata := by
  induction us with
  | nil => intro i r w; rfl
  | cons u rest ih =>
    intro i r w
    rcases userLoop_cons_cases A tr u rest i r w with
      ⟨_, h⟩ | ⟨_, _, h⟩ | ⟨_, _, w2, hp, h⟩ | ⟨_, _, w2, hp, h⟩
    · rw [h]; rfl
    · rw [h]; rfl
    · rw [h]; exact (publish_eq_some hp).2.2.1
    · rw [h, ih]; exact (publish_eq_some hp).2.2.1

theorem userLoop_length (A : Scaling) (tr : Transport) (us : List user_config_t) :
    ∀ (i : Nat) (r : Int) (w : World),
      (userLoop A tr us i r w).world.hal_udata.length = w.hal_udata.length := by
  induction us with
  | nil => intro i r w; rfl
  | cons u rest ih =>
    intro i r w
    rcases userLoop_cons_cases A tr u rest i r w with
      ⟨_, h⟩ | ⟨_, _, h⟩ | ⟨_, _, w2, hp, h⟩ | ⟨_, _, w2, hp, h⟩
    · rw [h]; rfl
    · rw [h]; rfl
    · rw [h]
      show w2.hal_udata.length = _
      rw [(publish_eq_some hp).2.2.2.2.2, length_modifyAt]; rfl
    · rw [h, ih, (publish_eq_some hp).2.2.2.2.2, length_modifyAt]; rfl

/-- The reads of the loop are a prefix of the remaining entries, not empty when an entry
remains, and no pin beyond the entries read is touched. -/
theorem userLoop_reads (A : Scaling) (tr : Transport) (us : List user_config_t) :
    ∀ (i : Nat) (r : Int) (w : World),
      ∃ n, n ≤ us.length ∧ (us ≠ [] → 0 < n) ∧
        (userLoop A tr us i r w).world.reads =
          w.reads ++ (us.map (fun u => u.address)).take n ∧
        ∀ k, i + n ≤ k → (userLoop A tr us i r w).world.hal_udata[k]? = w.hal_udata[k]? := by
  induction us with
  | nil => intro i r w; exact ⟨0, le_refl _, fun h => absurd rfl h, by simp [userLoop, Flow.world],
      fun _ _ => rfl⟩
  | cons u rest ih =>
    intro i r w
    rcases userLoop_cons_cases A tr u rest i r w with
      ⟨_, h⟩ | ⟨_, _, h⟩ | ⟨_, _, w2, hp, h⟩ | ⟨_, _, w2, hp, h⟩
    · rw [h]
      exact ⟨1, by simp, fun _ => Nat.one_pos, by simp [Flow.world, modbus_read_registers],
        fun _ _ => rfl⟩
    · rw [h]
      exact ⟨1, by simp, fun _ => Nat.one_pos,
        by simp [Flow.world, modbus_read_registers, printf], fun _ _ => rfl⟩
    · rw [h]
      refine ⟨1, by simp, fun _ => Nat.one_pos, ?_, ?_⟩
      · show w2.reads = _
        rw [(publish_eq_some hp).2.2.2.1]
        simp [modbus_read_registers]
      · intro k hk
        show w2.hal_udata[k]? = _
        rw [publish_getElem? hp, if_neg (by omega)]; rfl
    · rw [h]
      obtain ⟨n, hn, _, hreads, hframe⟩ := ih (i + 1) 0 w2
      refine ⟨n + 1, by simpa using hn, fun _ => Nat.succ_pos n, ?_, ?_⟩
      · rw [hreads, (publish_eq_some hp).2.2.2.1]
        simp [modbus_read_registers]
      · intro k hk
        rw [hframe k (by omega), publish_getElem? hp, if_neg (by omega)]; rfl

/-- An entry whose read fails, or whose kind has no case in the `switch`, ends the loop
through `fail` at the latest when it is reached, and its pin and the later ones keep their
values. -/
theorem userLoop_stop (A : Scaling) (tr : Transport) (us : List user_config_t) :
    ∀ (m i : Nat) (r : Int) (w : World) (u : user_config_t), us[m]? = some u →
      ((tr (i + m + 1)).result < 0 ∨ ¬ recognized u.pinType) →
      (userLoop A tr us i r w).failed ∧
      (userLoop A tr us i r w).world.reads.length ≤ w.reads.length + (m + 1) ∧
      ∀ k, i + m ≤ k → (userLoop A tr us i r w).world.hal_udata[k]? = w.hal_udata[k]? := by
  induction us with
  | nil => intro m i r w u hu; simp at hu
  | cons u0 rest ih =>
    intro m i r w u hu hstop
    rcases userLoop_cons_cases A tr u0 rest i r w with
      ⟨_, h⟩ | ⟨_, _, h⟩ | ⟨hpos, hrec, w2, hp, h⟩ | ⟨hzero, hrec, w2, hp, h⟩
    · rw [h]
      exact ⟨trivial, by simp [Flow.world, modbus_read_registers], fun _ _ => rfl⟩
    · rw [h]
      exact ⟨trivial, by simp [Flow.world, modbus_read_registers, printf], fun _ _ => rfl⟩
    · cases m with
      | zero =>
        simp at hu
        subst hu
        rcases hstop with hneg | hnrec
        · simp at hneg; omega
        · exact absurd hrec hnrec
      | succ m =>
        rw [h]
        refine ⟨trivial, ?_, ?_⟩
        · show w2.reads.length ≤ _
          rw [(publish_eq_some hp).2.2.2.1]
          simp [modbus_read_registers]
        · intro k hk
          show w2.hal_udata[k]? = _
          rw [publish_getElem? hp, if_neg (by omega)]; rfl
    · cases m with
      | zero =>
        simp at hu
        subst hu
        rcases hstop with hneg | hnrec
        · simp at hneg; omega
        · exact absurd hrec hnrec
      | succ m =>
        rw [h]
        have hu' : rest[m]? = some u := by simpa using hu
        have hidx : i + 1 + m + 1 = i + (m + 1) + 1 := by omega
        obtain ⟨hf, hlen, hframe⟩ := ih m (i + 1) 0 w2 u hu' (by rw [hidx]; exact hstop)
        refine ⟨hf, ?_, ?_⟩
        · have hw2 : w2.reads.length = w.reads.length + 1 := by
            rw [(publish_eq_some hp).2.2.2.1]
            simp [modbus_read_registers]
          omega
        · intro k hk
          rw [hframe k (by omega), publish_getElem? hp, if_neg (by omega)]; rfl

theorem read_parameters_eq (A : Scaling) (tr : Transport) (mconfig : main_config_t)
    (uconfig : List user_config_t) (w : World) :
    read_parameters A tr mconfig uconfig w =
      if (tr 0).result < 0 then
        fail_label (tr 0).result (modbus_read_registers tr 0 mconfig.rpmOut.address w).2
      else finish (userLoop A tr uconfig 0 (tr 0).result (spindleWorld A tr mconfig w)) := by
  unfold read_parameters
  by_cases h : (tr 0).result < 0
  · simp [modbus_read_registers, h]
  · simp only [modbus_read_registers, h, if_false, spindleWorld]
    cases userLoop A tr uconfig 0 (tr 0).result _ <;> rfl

theorem finish_failed {f : Flow} (h : f.failed) : (finish f).2 = (fail_label 0 f.world).2 := by
  cases f with
  | done r w => exact absurd h (by simp [Flow.failed])
  | fail r w => rfl

theorem finish_udata (f : Flow) : (finish f).2.hal_udata = f.world.hal_udata := by
  cases f <;> rfl

theorem finish_reads (f : Flow) : (finish f).2.reads = f.world.reads := by
  cases f <;> rfl

/-- A sweep touches neither the input pins nor the two status flags. -/
theorem finish_frame (f : Flow) :
    (finish f).2.hal_mdata.isConnected = f.world.hal_mdata.isConnected ∧
    (finish f).2.hal_mdata.spindleRpmIn = f.world.hal_mdata.spindleRpmIn ∧
    (finish f).2.hal_mdata.spindleRpmOut = f.world.hal_mdata.spindleRpmOut ∧
    (finish f).2.hal_mdata.atSpeed = f.world.hal_mdata.atSpeed ∧
    (finish f).2.hal_mdata.runForward = f.world.hal_mdata.runForward ∧
    (finish f).2.hal_mdata.runReverse = f.world.hal_mdata.runReverse := by
  cases f <;> exact ⟨rfl, rfl, rfl, rfl, rfl, rfl⟩

/-- The state after a sweep whose spindle read fails. -/
theorem read_parameters_spindle_fail (A : Scaling) (tr : Transport) (mconfig : main_config_t)
    (uconfig : List user_config_t) (w : World) (h0 : (tr 0).result < 0) :
    (read_parameters A tr mconfig uconfig w).2 =
      { errno := (w.printfErr.headD none).getD ((tr 0).err.getD w.errno)
        hal_mdata :=
          { w.hal_mdata with
            errorCount := wrapS32 (w.hal_mdata.errorCount + 1)
            lastError := (w.printfErr.headD none).getD ((tr 0).err.getD w.errno) }
        hal_udata := w.hal_udata
        reads := w.reads ++ [mconfig.rpmOut.address]
        printfErr := w.printfErr.tail } := by
  rw [read_parameters_eq, if_pos h0]
  rfl

/-- The reads of a sweep are a non-empty prefix of the register map in declaration order,
and pins beyond the entries read keep their values. -/
theorem read_parameters_reads (A : Scaling) (tr : Transport) (mconfig : main_config_t)
    (uconfig : List user_config_t) (w : World) :
    ∃ n, 0 < n ∧ n ≤ uconfig.length + 1 ∧
      (read_parameters A tr mconfig uconfig w).2.reads =
        w.reads ++ (registerOrder mconfig uconfig).take n ∧
      ∀ k, n ≤ k + 1 →
        (read_parameters A tr mconfig uconfig w).2.hal_udata[k]? = w.hal_udata[k]? := by
  by_cases h0 : (tr 0).result < 0
  · rw [read_parameters_spindle_fail A tr mconfig uconfig w h0]
    exact ⟨1, Nat.one_pos, by omega, by simp [registerOrder], fun _ _ => rfl⟩
  · rw [read_parameters_eq, if_neg h0, finish_reads, finish_udata]
    obtain ⟨n, hn, _, hreads, hframe⟩ :=
      userLoop_reads A tr uconfig 0 (tr 0).result (spindleWorld A tr mconfig w)
    refine ⟨n + 1, Nat.succ_pos n, by omega, ?_, ?_⟩
    · rw [hreads]
      simp [spindleWorld, modbus_read_registers, registerOrder]
    · intro k hk
      rw [hframe k (by omega)]
      rfl

/-- A sweep that meets a failing read or an unrecognized kind at user entry `m` after a
spindle read that did not fail. -/
theorem read_parameters_stop (A : Scaling) (tr : Transport) (mconfig : main_config_t)
    (uconfig : List user_config_t) (w : World) (m : Nat) (u : user_config_t)
    (h0 : ¬ (tr 0).result < 0) (hu : uconfig[m]? = some u)
    (hstop : (tr (m + 1)).result < 0 ∨ ¬ recognized u.pinType) :
    (read_parameters A tr mconfig uconfig w).2.hal_mdata.errorCount
        = wrapS32 (w.hal_mdata.errorCount + 1) ∧
    (read_parameters A tr mconfig uconfig w).2.hal_mdata.lastError
        = (read_parameters A tr mconfig uconfig w).2.errno ∧
    (read_parameters A tr mconfig uconfig w).2.reads.length ≤ w.reads.length + (m + 2) ∧
    (∀ k, m ≤ k →
      (read_parameters A tr mconfig uconfig w).2.hal_udata[k]? = w.hal_udata[k]?) := by
  have hidx : 0 + m + 1 = m + 1 := by omega
  obtain ⟨hf, hlen, hframe⟩ := userLoop_stop A tr uconfig m 0 (tr 0).result
    (spindleWorld A tr mconfig w) u hu (by rw [hidx]; exact hstop)
  have hmd := userLoop_mdata A tr uconfig 0 (tr 0).result (spindleWorld A tr mconfig w)
  have hw2 : (spindleWorld A tr mconfig w).reads.length = w.reads.length + 1 := by
    simp [spindleWorld, modbus_read_registers]
  rw [read_parameters_eq, if_neg h0]
  refine ⟨?_, ?_, ?_, ?_⟩
  · rw [finish_failed hf]
    show wrapS32 ((userLoop A tr uconfig 0 (tr 0).result _).world.hal_mdata.errorCount + 1) = _
    rw [hmd]
    rfl
  · rw [finish_failed hf]
    rfl
  · rw [finish_reads]
    omega
  · intro k hk
    rw [finish_udata, hframe k (by omega)]
    rfl

/-- What a sweep leaves untouched, whatever the bus does. -/
theorem read_parameters_frame (A : Scaling) (tr : Transport) (mconfig : main_config_t)
    (uconfig : List user_config_t) (w : World) :
    (read_parameters A tr mconfig uconfig w).2.hal_mdata.isConnected
      = w.hal_mdata.isConnected ∧
    (read_parameters A tr mconfig uconfig w).2.hal_mdata.spindleRpmIn
      = w.hal_mdata.spindleRpmIn ∧
    (read_parameters A tr mconfig uconfig w).2.hal_mdata.atSpeed = w.hal_mdata.atSpeed ∧
    (read_parameters A tr mconfig uconfig w).2.hal_mdata.runForward
      = w.hal_mdata.runForward ∧
    (read_parameters A tr mconfig uconfig w).2.hal_mdata.runReverse
      = w.hal_mdata.runReverse ∧
    (read_parameters A tr mconfig uconfig w).2.hal_udata.length = w.hal_udata.length := by
  by_cases h0 : (tr 0).result < 0
  · rw [read_parameters_spindle_fail A tr mconfig uconfig w h0]
    exact ⟨rfl, rfl, rfl, rfl, rfl, rfl⟩
  · rw [read_parameters_eq, if_neg h0]
    obtain ⟨h1, h2, _, h4, h5, h6⟩ :=
      finish_frame (userLoop A tr uconfig 0 (tr 0).result (spindleWorld A tr mconfig w))
    have hmd := userLoop_mdata A tr uconfig 0 (tr 0).result (spindleWorld A tr mconfig w)
    rw [h1, h2, h4, h5, h6, hmd, finish_udata, userLoop_length]
    exact ⟨rfl, rfl, rfl, rfl, rfl, rfl⟩

/-! ## Arithmetic of the conversions -/

theorem tdiv_bounds {a b : Int} (hb : 0 < b) :
    (0 ≤ a → 0 ≤ Int.tdiv a b ∧ Int.tdiv a b ≤ a) ∧
    (a ≤ 0 → a ≤ Int.tdiv a b ∧ Int.tdiv a b ≤ 0) := by
  constructor
  · intro ha
    rw [Int.tdiv_eq_ediv ha (le_of_lt hb)]
    exact ⟨Int.ediv_nonneg ha (le_of_lt hb), Int.ediv_le_self b ha⟩
  · intro ha
    have hna : 0 ≤ -a := by omega
    have h := Int.neg_tdiv (-a) b
    rw [neg_neg] at h
    rw [h, Int.tdiv_eq_ediv hna (le_of_lt hb)]
    have h1 := Int.ediv_nonneg hna (le_of_lt hb)
    have h2 := Int.ediv_le_self b hna
    omega

theorem tdiv_isS64 {a b : Int} (ha : IsS64 a) (hb : 0 < b) : IsS64 (Int.tdiv a b) := by
  unfold IsS64 at *
  rcases le_total 0 a with h | h
  · have := (tdiv_bounds hb).1 h
    omega
  · have := (tdiv_bounds hb).2 h
    omega

/-! ## Floating-point numbers -/

theorem protocol_delay_bits (cfg : rs485_config_t) (hbits : IsS32 (frameBits cfg)) :
    wrapS32 (wrapS32 ((if cfg.parity ≠ "N" then 1 + 1 else 1) + cfg.dataBits) + cfg.stopBits)
      = frameBits cfg := by
  unfold frameBits startBit IsS32 at *
  unfold wrapS32
  by_cases h : cfg.parity = "N"
  · simp only [h, ne_eq, not_true_eq_false, if_false, if_true] at hbits ⊢
    omega
  · simp only [h, ne_eq, not_false_eq_true, if_true, if_false] at hbits ⊢
    omega

theorem protocol_delay_eq (cfg : rs485_config_t) (hbaud : 0 < cfg.baudRate)
    (hint : IsS32 cfg.protocolDelay) (hbits : IsS32 (frameBits cfg))
    (hprod : IsS64 (1000000000 * cfg.protocolDelay * frameBits cfg)) :
    (protocol_delay cfg).tv_nsec =
      Int.tdiv (1000000000 * cfg.protocolDelay * frameBits cfg) cfg.baudRate := by
  have h1 : IsS64 (1000000000 * cfg.protocolDelay) := by
    unfold IsS32 at hint
    unfold IsS64
    omega
  show wrapS64 (Int.tdiv (wrapS64 (wrapS64 (1000000000 * cfg.protocolDelay) *
    wrapS32 (wrapS32 ((if cfg.parity ≠ "N" then 1 + 1 else 1) + cfg.dataBits) + cfg.stopBits)))
    cfg.baudRate) = _
  rw [protocol_delay_bits cfg hbits, wrapS64_eq_self h1, wrapS64_eq_self hprod,
    wrapS64_eq_self (tdiv_isS64 hprod hbaud)]

/-! ## Protocol delay (C7) -/

/-- C7, as stated, fails: with protocol delay factor 2147483647 at 1 baud (parity "N",
8 data bits, 1 stop bit) the formula gives 21474836470000000000 ns, which no `long` holds,
and `protocol_delay` computes another number. -/
theorem protocol_delay_overflows_long :
    0 < cfgHuge.baudRate ∧ 0 ≤ cfgHuge.protocolDelay ∧
    ¬ IsS64 (1000000000 * cfgHuge.protocolDelay * (1 + cfgHuge.dataBits + cfgHuge.stopBits)
        / cfgHuge.baudRate) ∧
    (protocol_delay cfgHuge).tv_nsec ≠
      1000000000 * cfgHuge.protocolDelay * (1 + cfgHuge.dataBits + cfgHuge.stopBits)
        / cfgHuge.baudRate := by
  decide

/-- C7 (amended): for every configuration with `baudRate > 0` and a protocol delay factor
`>= 0` whose bit count `startBit + dataBits + stopBits` fits in `int` and whose product
`1e9 * factor * bits` fits in a 64-bit `long`, `protocol_delay` sleeps for
`1e9 * factor * bits / baudRate` nanoseconds (integer division truncating toward zero),
with `startBit = 1` for parity "N" and `2` otherwise; for 9600 baud, "N", 8, 1, factor 1
this is within 1 ns of 1,041,667; and with a factor `> 0`, a non-negative bit count and
`baudRate <= 1e9 * factor`, any parity other than "N" gives a strictly longer delay than
"N". -/
theorem protocol_delay_formula (cfg : rs485_config_t)
    (hbaud : 0 < cfg.baudRate) (hfactor : 0 ≤ cfg.protocolDelay)
    (hint : IsS32 cfg.protocolDelay) (hbits : IsS32 (frameBits cfg))
    (hprod : IsS64 (1000000000 * cfg.protocolDelay * frameBits cfg)) :
    (protocol_delay cfg).tv_sec = 0 ∧
    (protocol_delay cfg).tv_nsec =
      Int.tdiv (1000000000 * cfg.protocolDelay *
        ((if cfg.parity = "N" then 1 else 2) + cfg.dataBits + cfg.stopBits)) cfg.baudRate ∧
    (0 ≤ frameBits cfg → (protocol_delay cfg).tv_nsec =
      1000000000 * cfg.protocolDelay * frameBits cfg / cfg.baudRate) ∧
    (1041667 - 1 ≤ (protocol_delay cfg9600).tv_nsec ∧
      (protocol_delay cfg9600).tv_nsec ≤ 1041667 + 1) ∧
    (cfg.parity ≠ "N" → 0 < cfg.protocolDelay → 0 ≤ 1 + cfg.dataBits + cfg.stopBits →
      cfg.baudRate ≤ 1000000000 * cfg.protocolDelay →
      (protocol_delay { cfg with parity := "N" }).tv_nsec < (protocol_delay cfg).tv_nsec) := by
  have heq := protocol_delay_eq cfg hbaud hint hbits hprod
  have hfb : frameBits cfg = (if cfg.parity = "N" then 1 else 2) + cfg.dataBits + cfg.stopBits := by
    unfold frameBits startBit
    by_cases h : cfg.parity = "N" <;> simp [h]
  refine ⟨rfl, by rw [heq, hfb], ?_, by decide, ?_⟩
  · intro hnn
    rw [heq, Int.tdiv_eq_ediv (mul_nonneg (by omega) hnn) (le_of_lt hbaud)]
  · intro hpar hpos hnn hle
    have hfb2 : frameBits cfg = 2 + cfg.dataBits + cfg.stopBits := by
      rw [hfb, if_neg hpar]
    have hfbN : frameBits { cfg with parity := "N" } = 1 + cfg.dataBits + cfg.stopBits := by
      simp [frameBits, startBit]
    have hA : 0 ≤ 1000000000 * cfg.protocolDelay := by omega
    have hAB : 0 ≤ 1000000000 * cfg.protocolDelay * (1 + cfg.dataBits + cfg.stopBits) :=
      mul_nonneg hA hnn
    have hsplit : 1000000000 * cfg.protocolDelay * (2 + cfg.dataBits + cfg.stopBits)
        = 1000000000 * cfg.protocolDelay * (1 + cfg.dataBits + cfg.stopBits)
          + 1000000000 * cfg.protocolDelay := by ring
    have hbitsN : IsS32 (frameBits { cfg with parity := "N" }) := by
      rw [hfbN]
      rw [hfb2] at hbits
      unfold IsS32 at *
      omega
    have hprodN : IsS64 (1000000000 * ({ cfg with parity := "N" } : rs485_config_t).protocolDelay
        * frameBits { cfg with parity := "N" }) := by
      rw [hfbN]
      rw [hfb2, hsplit] at hprod
      unfold IsS64 at *
      constructor
      · exact le_trans (by decide) hAB
      · exact le_trans (le_add_of_nonneg_right hA) hprod.2
    have heqN := protocol_delay_eq { cfg with parity := "N" } hbaud hint hbitsN hprodN
    rw [hfbN] at heqN
    rw [heqN, heq, hfb2, hsplit, Int.tdiv_eq_ediv hAB (le_of_lt hbaud),
      Int.tdiv_eq_ediv (add_nonneg hAB hA) (le_of_lt hbaud)]
    have hstep : 1000000000 * cfg.protocolDelay * (1 + cfg.dataBits + cfg.stopBits) / cfg.baudRate + 1
        ≤ (1000000000 * cfg.protocolDelay * (1 + cfg.dataBits + cfg.stopBits)
            + 1000000000 * cfg.protocolDelay) / cfg.baudRate := by
      have h1 := Int.add_mul_ediv_right
        (1000000000 * cfg.protocolDelay * (1 + cfg.dataBits + cfg.stopBits)) 1
        (ne_of_gt hbaud)
      rw [one_mul] at h1
      rw [← h1]
      exact Int.ediv_le_ediv hbaud (by omega)
    exact lt_of_lt_of_le (Int.lt_succ_self _) hstep

/-- The amended C7 at 9600 baud, parity "E", 8 data bits, 1 stop bit, factor 1: the delay
is 1,145,833 ns, longer than the 1,041,666 ns of parity "N". -/
theorem protocol_delay_formula_witness :
    (protocol_delay { cfg9600 with parity := "E" }).tv_nsec = 1145833 ∧
    (protocol_delay { cfg9600 with parity := "E" }).tv_nsec =
      1000000000 * 1 * frameBits { cfg9600 with parity := "E" } / 9600 ∧
    (protocol_delay { { cfg9600 with parity := "E" } with parity := "N" }).tv_nsec
      < (protocol_delay { cfg9600 with parity := "E" }).tv_nsec :=
  ⟨by decide,
    (protocol_delay_formula { cfg9600 with parity := "E" } (by decide) (by decide) (by decide)
      (by decide) (by decide)).2.2.1 (by decide),
    (protocol_delay_formula { cfg9600 with parity := "E" } (by decide) (by decide) (by decide)
      (by decide) (by decide)).2.2.2.2 (by decide) (by decide) (by decide) (by decide)⟩

/-! ## Loop delay (C8) -/

/-- C8 at `loopDelayMs = 1000`: `loop_delay` asks `nanosleep` for 0 s and 1,000,000,000 ns.
The total is the configured second, but the nanosecond field is out of range, so the
request is not one `nanosleep` accepts. -/
theorem loop_delay_one_second_invalid :
    loop_delay cfgSecond = { tv_sec := 0, tv_nsec := 1000000000 } ∧
    (loop_delay cfgSecond).nanos = cfgSecond.loopDelayMs * 1000000 ∧
    ¬ (loop_delay cfgSecond).tv_nsec ≤ 999999999 ∧
    ¬ (loop_delay cfgSecond).valid := by
  decide

/-! ## Abort on a failed read (C1) -/

/-- C4: for every register map, arithmetic of the scaling and starting state, if the reply
to the read at position `j` of a sweep is a failure, the pin of every user entry at
position `j` or later has its value from before the sweep, and when `j = 0` (spindle read)
the spindle RPM output and all user pins are unchanged and the main pin block differs from
its old value in the error count and the last-error code only. -/
theorem read_parameters_keeps_outputs_on_failure (A : Scaling) (tr : Transport)
    (mconfig : main_config_t) (uconfig : List user_config_t) (w : World) (j : Nat)
    (hfail : (tr j).result < 0) :
    (∀ k, j ≤ k + 1 →
      (read_parameters A tr mconfig uconfig w).2.hal_udata[k]? = w.hal_udata[k]?) ∧
    (j = 0 →
      (read_parameters A tr mconfig uconfig w).2.hal_mdata.spindleRpmOut
        = w.hal_mdata.spindleRpmOut ∧
      (read_parameters A tr mconfig uconfig w).2.hal_udata = w.hal_udata ∧
      (read_parameters A tr mconfig uconfig w).2.hal_mdata =
        { w.hal_mdata with
          errorCount := (read_parameters A tr mconfig uconfig w).2.hal_mdata.errorCount
          lastError := (read_parameters A tr mconfig uconfig w).2.hal_mdata.lastError }) := by
  by_cases h0 : (tr 0).result < 0
  · rw [read_parameters_spindle_fail A tr mconfig uconfig w h0]
    exact ⟨fun _ _ => rfl, fun _ => ⟨rfl, rfl, rfl⟩⟩
  · cases j with
    | zero => exact absurd hfail h0
    | succ m =>
      refine ⟨?_, fun h => absurd h (Nat.succ_ne_zero m)⟩
      intro k hk
      cases hu : uconfig[m]? with
      | some u =>
        exact (read_parameters_stop A tr mconfig uconfig w m u h0 hu (Or.inl hfail)).2.2.2 k
          (by omega)
      | none =>
        have hm : uconfig.length ≤ m := List.getElem?_eq_none_iff.mp hu
        obtain ⟨n, _, hn, _, hframe⟩ := read_parameters_reads A tr mconfig uconfig w
        exact hframe k (by omega)

/-- C4 on a map with three user parameters, on a bus whose reads return 0 until the read
of the second parameter fails: the pins of the second and third parameter keep their
values, while the first parameter was published. -/
theorem read_parameters_keeps_outputs_on_failure_witness :
    (read_parameters scalingSpec (busZeroFailAt 2) mconfigHalf
      [userHalf 20 .HAL_FLOAT, userHalf 21 .HAL_S32, userHalf 22 .HAL_U32]
      (world0 3)).2.hal_udata[1]? = (world0 3).hal_udata[1]? ∧
    (read_parameters scalingSpec (busZeroFailAt 2) mconfigHalf
      [userHalf 20 .HAL_FLOAT, userHalf 21 .HAL_S32, userHalf 22 .HAL_U32]
      (world0 3)).2.hal_udata[2]? = (world0 3).hal_udata[2]? ∧
    ((read_parameters scalingSpec (busZeroFailAt 2) mconfigHalf
      [userHalf 20 .HAL_FLOAT, userHalf 21 .HAL_S32, userHalf 22 .HAL_U32]
      (world0 3)).2.hal_udata.map (fun d => d.s32Pin)) = [0, 0, 0] ∧
    (read_parameters scalingSpec (busZeroFailAt 2) mconfigHalf
      [userHalf 20 .HAL_FLOAT, userHalf 21 .HAL_S32, userHalf 22 .HAL_U32]
      (world0 3)).2.reads = [100, 20, 21] :=
  have h := (read_parameters_keeps_outputs_on_failure scalingSpec (busZeroFailAt 2) mconfigHalf
    [userHalf 20 .HAL_FLOAT, userHalf 21 .HAL_S32, userHalf 22 .HAL_U32] (world0 3) 2
    (by decide)).1
  ⟨h 1 (by decide), h 2 (by decide), of_decide_eq_true rfl, of_decide_eq_true rfl⟩

/-! ## Unrecognized output kind (C9) -/

/-- C9, as stated, fails for a starting state whose error count is 2147483647: the sweep
meets a user parameter of kind `HAL_BIT`, the signed 32-bit counter overflows, and the
count after the sweep is not the count before plus 1, for every arithmetic of the
scaling. -/
theorem unrecognized_kind_count_overflows :
    ¬ recognized (userHalf 20 .HAL_BIT).pinType ∧
    (∀ k, k ≤ 1 → 0 ≤ (busOk k).result) ∧
    ∀ A : Scaling,
      (read_parameters A busOk mconfigHalf [userHalf 20 .HAL_BIT]
        (worldFull 1)).2.hal_mdata.errorCount = -2147483648 ∧
      (read_parameters A busOk mconfigHalf [userHalf 20 .HAL_BIT]
        (worldFull 1)).2.hal_mdata.errorCount ≠ (worldFull 1).hal_mdata.errorCount + 1 := by
  refine ⟨by decide, ?_, fun A => ⟨of_decide_eq_true rfl, of_decide_eq_true rfl⟩⟩
  intro k _
  simp [busOk, okReply]

/-- C9 (amended): for every register map in which user parameter `i` has an output kind
other than floating-point, signed-32 or unsigned-32, and every starting state whose error
count is a signed 32-bit value below 2147483647, a sweep writes no pin of entry `i`, reads
a prefix of the register map that ends at entry `i` at the latest, increments the error
count by exactly 1 and stores `errno` as last-error code, whatever the reads return and
whatever the arithmetic of the scaling. -/
theorem read_parameters_unrecognized_kind (A : Scaling) (tr : Transport)
    (mconfig : main_config_t) (uconfig : List user_config_t) (w : World) (i : Nat)
    (u : user_config_t) (hu : uconfig[i]? = some u)
    (hkind : u.pinType ≠ .HAL_FLOAT ∧ u.pinType ≠ .HAL_S32 ∧ u.pinType ≠ .HAL_U32)
    (hrange : IsS32 w.hal_mdata.errorCount) (hmax : w.hal_mdata.errorCount ≠ 2147483647) :
    (read_parameters A tr mconfig uconfig w).2.hal_udata[i]? = w.hal_udata[i]? ∧
    (∃ n, n ≤ i + 2 ∧
      (read_parameters A tr mconfig uconfig w).2.reads =
        w.reads ++ (registerOrder mconfig uconfig).take n) ∧
    (read_parameters A tr mconfig uconfig w).2.hal_mdata.errorCount
      = w.hal_mdata.errorCount + 1 ∧
    (read_parameters A tr mconfig uconfig w).2.hal_mdata.lastError
      = (read_parameters A tr mconfig uconfig w).2.errno := by
  have hinc : wrapS32 (w.hal_mdata.errorCount + 1) = w.hal_mdata.errorCount + 1 := by
    apply wrapS32_eq_self
    unfold IsS32 at *
    omega
  have hnrec : ¬ recognized u.pinType := by
    unfold recognized
    tauto
  by_cases h0 : (tr 0).result < 0
  · rw [read_parameters_spindle_fail A tr mconfig uconfig w h0]
    exact ⟨rfl, ⟨1, by omega, by simp [registerOrder]⟩, hinc, rfl⟩
  · obtain ⟨hcount, hlast, hlen, hframe⟩ :=
      read_parameters_stop A tr mconfig uconfig w i u h0 hu (Or.inr hnrec)
    obtain ⟨n, _, hn, hreads, _⟩ := read_parameters_reads A tr mconfig uconfig w
    refine ⟨hframe i (le_refl i), ⟨n, ?_, hreads⟩, by rw [hcount, hinc], hlast⟩
    rw [hreads, List.length_append, List.length_take] at hlen
    have hro : (registerOrder mconfig uconfig).length = uconfig.length + 1 := by
      simp [registerOrder]
    rw [hro, Nat.min_eq_left hn] at hlen
    omega

/-- The amended C9 on a map whose first user parameter is of kind `HAL_BIT`, on a bus that
answers every read: its pin record is not written, the second parameter is not read, and
the error count goes from 0 to 1. -/
theorem read_parameters_unrecognized_kind_witness :
    (read_parameters scalingSpec busOk mconfigHalf [userHalf 20 .HAL_BIT, userHalf 21 .HAL_S32]
      (world0 2)).2.hal_udata[0]? = (world0 2).hal_udata[0]? ∧
    (∃ n, n ≤ 0 + 2 ∧
      (read_parameters scalingSpec busOk mconfigHalf
        [userHalf 20 .HAL_BIT, userHalf 21 .HAL_S32] (world0 2)).2.reads =
        (world0 2).reads ++
          (registerOrder mconfigHalf [userHalf 20 .HAL_BIT, userHalf 21 .HAL_S32]).take n) ∧
    (read_parameters scalingSpec busOk mconfigHalf [userHalf 20 .HAL_BIT, userHalf 21 .HAL_S32]
      (world0 2)).2.hal_mdata.errorCount = (world0 2).hal_mdata.errorCount + 1 ∧
    (read_parameters scalingSpec busOk mconfigHalf [userHalf 20 .HAL_BIT, userHalf 21 .HAL_S32]
      (world0 2)).2.hal_mdata.lastError =
      (read_parameters scalingSpec busOk mconfigHalf
        [userHalf 20 .HAL_BIT, userHalf 21 .HAL_S32] (world0 2)).2.errno :=
  read_parameters_unrecognized_kind scalingSpec busOk mconfigHalf
    [userHalf 20 .HAL_BIT, userHalf 21 .HAL_S32] (world0 2) 0 (userHalf 20 .HAL_BIT)
    (of_decide_eq_true rfl) (by decide) (by decide) (by decide)

/-! ## Integer outputs (C5) -/

/-- C2 at one floating-point user parameter on a bus whose every read returns 1 and
delivers 1500, from the start-up state: after one sweep the error count is 1, after two
sweeps it is 2, so the published outputs of the two differ, for every arithmetic of the
scaling. -/
theorem sweep_twice_drifts :
    main_init 0 0 [] [userHalf 20 .HAL_FLOAT] = some (world0 1) ∧
    ∀ A : Scaling,
      (run A mconfigHalf [userHalf 20 .HAL_FLOAT] [busOk] (world0 1)).hal_mdata.errorCount
        = 1 ∧
      (run A mconfigHalf [userHalf 20 .HAL_FLOAT] [busOk, busOk]
        (world0 1)).hal_mdata.errorCount = 2 ∧
      (run A mconfigHalf [userHalf 20 .HAL_FLOAT] [busOk, busOk] (world0 1)).published ≠
        (run A mconfigHalf [userHalf 20 .HAL_FLOAT] [busOk] (world0 1)).published := by
  refine ⟨by decide, fun A => ⟨of_decide_eq_true rfl, of_decide_eq_true rfl, ?_⟩⟩
  intro h
  have h2 : (run A mconfigHalf [userHalf 20 .HAL_FLOAT] [busOk, busOk]
      (world0 1)).hal_mdata.errorCount
      = (run A mconfigHalf [userHalf 20 .HAL_FLOAT] [busOk] (world0 1)).hal_mdata.errorCount :=
    congrArg (fun p => p.1.errorCount) h
  have h3 : (run A mconfigHalf [userHalf 20 .HAL_FLOAT] [busOk, busOk]
      (world0 1)).hal_mdata.errorCount = 2 := of_decide_eq_true rfl
  have h4 : (run A mconfigHalf [userHalf 20 .HAL_FLOAT] [busOk]
      (world0 1)).hal_mdata.errorCount = 1 := of_decide_eq_true rfl
  rw [h3, h4] at h2
  exact absurd h2 (by decide)

/-! ## Read order on a bus that always answers (C3) -/

/-- C3 at three user parameters on a bus whose every read returns 1: the sweep reads the
spindle register and the first user parameter only, then leaves through `fail`, for every
arithmetic of the scaling. -/
theorem sweep_reads_stop_after_first_user :
    registerOrder mconfigHalf
      [userHalf 20 .HAL_FLOAT, userHalf 21 .HAL_S32, userHalf 22 .HAL_U32] = [100, 20, 21, 22] ∧
    ∀ A : Scaling,
      (read_parameters A busOk mconfigHalf
        [userHalf 20 .HAL_FLOAT, userHalf 21 .HAL_S32, userHalf 22 .HAL_U32]
        (world0 3)).2.reads = [100, 20] ∧
      (read_parameters A busOk mconfigHalf
        [userHalf 20 .HAL_FLOAT, userHalf 21 .HAL_S32, userHalf 22 .HAL_U32]
        (world0 3)).2.hal_mdata.errorCount = 1 :=
  ⟨by decide, fun _ => ⟨of_decide_eq_true rfl, of_decide_eq_true rfl⟩⟩

/-! ## Pins the core never writes (C10) -/

theorem sweep_frame (A : Scaling) (tr : Transport) (mconfig : main_config_t)
    (uconfig : List user_config_t) (w : World) :
    (sweep A tr mconfig uconfig w).hal_mdata =
      { w.hal_mdata with
        spindleRpmOut := (sweep A tr mconfig uconfig w).hal_mdata.spindleRpmOut
        errorCount := (sweep A tr mconfig uconfig w).hal_mdata.errorCount
        lastError := (sweep A tr mconfig uconfig w).hal_mdata.lastError } ∧
    (sweep A tr mconfig uconfig w).hal_udata.length = w.hal_udata.length := by
  obtain ⟨h1, h2, h3, h4, h5, h6⟩ := read_parameters_frame A tr mconfig uconfig w
  unfold sweep
  refine ⟨?_, h6⟩
  cases hm : (read_parameters A tr mconfig uconfig w).2.hal_mdata
  rw [hm] at h1 h2 h3 h4 h5
  simp only at h1 h2 h3 h4 h5
  subst h1 h2 h3 h4 h5
  rfl

theorem run_frame (A : Scaling) (mconfig : main_config_t) (uconfig : List user_config_t)
    (trs : List Transport) :
    ∀ w : World,
      (run A mconfig uconfig trs w).hal_mdata.isConnected = w.hal_mdata.isConnected ∧
      (run A mconfig uconfig trs w).hal_mdata.spindleRpmIn = w.hal_mdata.spindleRpmIn ∧
      (run A mconfig uconfig trs w).hal_mdata.atSpeed = w.hal_mdata.atSpeed ∧
      (run A mconfig uconfig trs w).hal_mdata.runForward = w.hal_mdata.runForward ∧
      (run A mconfig uconfig trs w).hal_mdata.runReverse = w.hal_mdata.runReverse ∧
      (run A mconfig uconfig trs w).hal_udata.length = w.hal_udata.length := by
  induction trs with
  | nil => intro w; exact ⟨rfl, rfl, rfl, rfl, rfl, rfl⟩
  | cons tr trs ih =>
    intro w
    obtain ⟨h1, h2, h3, h4, h5, h6⟩ := ih (sweep A tr mconfig uconfig w)
    obtain ⟨g1, g2, g3, g4, g5, g6⟩ := read_parameters_frame A tr mconfig uconfig w
    have hrun : run A mconfig uconfig (tr :: trs) w
        = run A mconfig uconfig trs (sweep A tr mconfig uconfig w) := rfl
    rw [hrun, h1, h2, h3, h4, h5, h6]
    exact ⟨g1, g2, g3, g4, g5, g6⟩

theorem main_init_mdata {result e : Int} {out : List (Option Int)}
    {uconfig : List user_config_t} {w0 : World}
    (h : main_init result e out uconfig = some w0) : w0.hal_mdata = hal_mdata_init := by
  unfold main_init at h
  split at h
  · exact absurd h (by simp)
  · cases hp : init_user_pins result uconfig with
    | none => rw [hp] at h; exact absurd h (by simp)
    | some l =>
      rw [hp] at h
      simp at h
      rw [← h]

/-- C10: from any state in which `main` enters its loop, after any finite number of sweeps
on any bus, the connected flag and the at-speed flag are false, the spindle RPM command is
0 and the run-forward and run-reverse inputs are false, as `main` set them; and from any
state a sweep leaves every pin of the main block other than the spindle RPM output, the
error count and the last-error code as it was, and keeps the number of user pins.  This
holds for every arithmetic of the scaling and every behaviour of `printf`. -/
theorem run_never_raises_flags (A : Scaling) (mconfig : main_config_t)
    (uconfig : List user_config_t) (result e : Int) (out : List (Option Int)) (w0 : World)
    (hinit : main_init result e out uconfig = some w0) (trs : List Transport) :
    ((run A mconfig uconfig trs w0).hal_mdata.isConnected = false ∧
      (run A mconfig uconfig trs w0).hal_mdata.atSpeed = false ∧
      (run A mconfig uconfig trs w0).hal_mdata.spindleRpmIn = 0 ∧
      (run A mconfig uconfig trs w0).hal_mdata.runForward = false ∧
      (run A mconfig uconfig trs w0).hal_mdata.runReverse = false) ∧
    (∀ (tr : Transport) (w : World),
      (sweep A tr mconfig uconfig w).hal_mdata =
        { w.hal_mdata with
          spindleRpmOut := (sweep A tr mconfig uconfig w).hal_mdata.spindleRpmOut
          errorCount := (sweep A tr mconfig uconfig w).hal_mdata.errorCount
          lastError := (sweep A tr mconfig uconfig w).hal_mdata.lastError } ∧
      (sweep A tr mconfig uconfig w).hal_udata.length = w.hal_udata.length) := by
  obtain ⟨h1, h2, h3, h4, h5, _⟩ := run_frame A mconfig uconfig trs w0
  have hm := main_init_mdata hinit
  refine ⟨?_, fun tr w => sweep_frame A tr mconfig uconfig w⟩
  rw [h1, h2, h3, h4, h5, hm]
  exact ⟨rfl, rfl, rfl, rfl, rfl⟩

/-- C10 on three sweeps from the start-up state with one user parameter: a failing spindle
read, a bus that answers, and a failing user read. -/
theorem run_never_raises_flags_witness :
    (run scalingSpec mconfigHalf [userHalf 20 .HAL_S32] [busFailAt 0, busOk, busFailAt 1]
        (world0 1)).hal_mdata.isConnected = false ∧
    (run scalingSpec mconfigHalf [userHalf 20 .HAL_S32] [busFailAt 0, busOk, busFailAt 1]
        (world0 1)).hal_mdata.atSpeed = false ∧
    (run scalingSpec mconfigHalf [userHalf 20 .HAL_S32] [busFailAt 0, busOk, busFailAt 1]
        (world0 1)).hal_mdata.spindleRpmIn = 0 ∧
    (run scalingSpec mconfigHalf [userHalf 20 .HAL_S32] [busFailAt 0, busOk, busFailAt 1]
        (world0 1)).hal_mdata.runForward = false ∧
    (run scalingSpec mconfigHalf [userHalf 20 .HAL_S32] [busFailAt 0, busOk, busFailAt 1]
        (world0 1)).hal_mdata.runReverse = false :=
  (run_never_raises_flags scalingSpec mconfigHalf [userHalf 20 .HAL_S32] 0 0 [] (world0 1)
    (by decide) [busFailAt 0, busOk, busFailAt 1]).1

end Vfdmod
